import Mathlib

/-!
Verification of the anonymous-communication-protocol suite
(`src/p2p_network/participant_node.py`, `src/p2p_network/amdc_for_p2p.py`).

The development embeds the Python sources shallowly:

* Bits are natural numbers; `^` / `np.bitwise_xor.reduce` become `Nat.xor`
  folded over lists (`listXor`).
* The one-round parity protocol (`execute_parity`) is modelled at the system
  level: every participant contributes a share bit-vector produced by
  `create_bitstring`, the delivery of the shares is an arbitrary bijection
  between the positions of each vector and the participants, and the order in
  which a participant's mailbox receives the broadcast values is an arbitrary
  permutation (XOR is commutative, so the Python mailboxes' arrival order is
  irrelevant and is quantified over).
* The AMDC codec (`amdc_for_p2p.py`) is embedded with GF(2)[x] polynomials
  represented as natural numbers (coefficient bit-vectors), carry-less
  multiplication and schoolbook division mirroring the `galois` library
  operations used by the source.
* The per-participant protocol driver (`ParticipantNode`) is embedded as a
  state-transformer over a record `PNState` of its instance attributes, with
  the network and the random source supplied as explicit oracle data.

All definitions are executable (structural or fuel-based recursion only), so
concrete protocol runs evaluate inside the kernel.
-/

/-- XOR-fold of a list of naturals; models `np.bitwise_xor.reduce` (with the
empty fold given the neutral value 0). -/
def listXor (l : List ℕ) : ℕ := l.foldl Nat.xor 0

/-- A list all of whose entries are bits. -/
def BitList (l : List ℕ) : Prop := ∀ b ∈ l, b ≤ 1

instance (l : List ℕ) : Decidable (BitList l) := by
  unfold BitList; infer_instance

/-- Admissibility of a share bit-vector, from `create_bitstring`
(`participant_node.py` lines 433-441): the vector has one bit per participant
(`len(self.all_nodes) + 1` entries) and is resampled until
`bitstring.count(1) % 2` equals `parity_input`. -/
def create_bitstring_admits (number_of_participants parity_input : ℕ)
    (bitstring : List ℕ) : Prop :=
  bitstring.length = number_of_participants ∧ BitList bitstring ∧
    bitstring.count 1 % 2 = parity_input

instance (a b : ℕ) (l : List ℕ) : Decidable (create_bitstring_admits a b l) := by
  unfold create_bitstring_admits; infer_instance

/-- Randomness of one system-wide parity round: each participant's accepted
share bit-vector from `create_bitstring`, plus the bijection that decides
which position of each vector each participant receives (the participant
keeps position 0 for itself and sends the rest, one bit per peer;
correctness only needs that each position reaches exactly one participant). -/
structure ParityRound (n : ℕ) where
  shares : Fin n → List ℕ
  assign : Fin n → Equiv.Perm (Fin n)

/-- Mailbox `parity_shared_keys` of participant `j` when everyone has
distributed their key bits (`distribute_key_bits`): one bit of every
participant's vector. -/
def sharedKeys {n : ℕ} (R : ParityRound n) (j : Fin n) : List ℕ :=
  List.ofFn fun i => (R.shares i).getD (R.assign i j) 0

/-- Models `calculate_parity_xor_key_result` (lines 471-476): the XOR of all
received shared keys. -/
def calculate_parity_xor_key_result (keys : List ℕ) : ℕ := listXor keys

/-- Models `calculate_parity_result` (lines 478-482): the XOR of all received
broadcast values. -/
def calculate_parity_result (received : List ℕ) : ℕ := listXor received

/-- The value participant `j` broadcasts in the round. -/
def broadcastValue {n : ℕ} (R : ParityRound n) (j : Fin n) : ℕ :=
  calculate_parity_xor_key_result (sharedKeys R j)

/-- All broadcast values of the round, in participant order. -/
def allBroadcasts {n : ℕ} (R : ParityRound n) : List ℕ :=
  List.ofFn (broadcastValue R)

/-- The round's randomness is consistent with the input vector `v`: every
participant's share vector is one that `create_bitstring` can return for its
`parity_input`. -/
def ValidParityRound {n : ℕ} (v : Fin n → ℕ) (R : ParityRound n) : Prop :=
  ∀ i, create_bitstring_admits n (v i) (R.shares i)

instance {n : ℕ} (v : Fin n → ℕ) (R : ParityRound n) :
    Decidable (ValidParityRound v R) := by
  unfold ValidParityRound; infer_instance

/-- Models `set_parity_input_by_veto_input` (`participant_node.py` lines
392-400): a vetoing participant enters a uniformly random bit, a non-vetoing
participant enters 0. -/
def set_parity_input_by_veto_input (veto_input rand : ℕ) : ℕ :=
  if veto_input = 0 then 0 else rand

/-- Final `veto_result` of the round loop of `execute_veto` (lines 373-390):
after every parity round `veto_result` is overwritten with `parity_result`
and the loop aborts as soon as it is 1. -/
def veto_result_fold : List ℕ → ℕ → ℕ
  | [], r => r
  | x :: xs, _ => if x = 1 then 1 else veto_result_fold xs x

/-- One veto round's randomness: the `randbits(1)` draw of every participant
in `set_parity_input_by_veto_input`, plus the parity-round randomness. -/
structure VetoRound (n : ℕ) where
  rand : Fin n → ℕ
  shares : ParityRound n

/-- Models `set_notification_parity_by_notification_input` (lines 279-291):
a participant whose `notification_input` names the current spectator `p`
enters a uniformly random bit, everyone else enters 0. -/
def set_notification_parity_by_notification_input (p notification_input : String)
    (rand : ℕ) : ℕ :=
  if p = notification_input then rand else 0

/-- Final `notification_result` of participant `j` after the spectator loop of
`execute_notification_parity` (lines 245-277): `itertools.product` iterates
spectators in `all_node_ids` order with `notification_security` parity rounds
each; only in rounds where `j` itself is the spectator does it fold the
round's parity result into `notification_result` with `|`
(`set_notification_result_by_parity_result`, lines 293-300). -/
def notification_result_fold (ids : List String) (security : ℕ) (self : String)
    (roundResult : String → ℕ → ℕ) : ℕ :=
  (ids.flatMap fun p => (List.range security).map fun r => (p, r)).foldl
    (fun acc pr => if pr.1 = self then acc ||| roundResult pr.1 pr.2 else acc) 0

/-- Floor of the base-2 logarithm (fuel-based so that it reduces in the
kernel); degree of a GF(2)[x] polynomial represented as a coefficient
number. -/
def floorLog2Aux : ℕ → ℕ → ℕ
  | 0, _ => 0
  | fuel + 1, n => if n < 2 then 0 else floorLog2Aux fuel (n / 2) + 1

def floorLog2 (n : ℕ) : ℕ := floorLog2Aux n n

/-- Carry-less (GF(2)[x]) product of two coefficient numbers; models the
`galois` library polynomial product used by `amdc_for_p2p.py`. -/
def polyMulAux : ℕ → ℕ → ℕ → ℕ
  | 0, _, _ => 0
  | fuel + 1, a, b =>
    if a = 0 then 0
    else Nat.xor (if a % 2 = 1 then b else 0) (polyMulAux fuel (a / 2) (2 * b))

def polyMul (a b : ℕ) : ℕ := polyMulAux a a b

/-- GF(2)[x] power; models `theta_poly ** k`. -/
def polyPow (a : ℕ) : ℕ → ℕ
  | 0 => 1
  | k + 1 => polyMul a (polyPow a k)

/-- Schoolbook GF(2)[x] remainder: repeatedly XOR the divisor, shifted so its
leading coefficient cancels the dividend's, until the degree drops below the
divisor's; models `f_poly % b_poly`. -/
def polyModAux (b : ℕ) : ℕ → ℕ → ℕ
  | 0, a => a
  | fuel + 1, a =>
    if 2 ^ floorLog2 b ≤ a then
      polyModAux b fuel (Nat.xor a (b <<< (floorLog2 a - floorLog2 b)))
    else a

def polyMod (a b : ℕ) : ℕ := polyModAux b (a + 1) a

/-- Binary digits of a natural, most significant bit first; models Python's
`bin(x)[2:]` (so 0 becomes the single digit 0). -/
def natBitsRevAux : ℕ → ℕ → List ℕ
  | 0, _ => []
  | fuel + 1, n => if n = 0 then [] else n % 2 :: natBitsRevAux fuel (n / 2)

def natToBits (n : ℕ) : List ℕ :=
  if n = 0 then [0] else (natBitsRevAux n n).reverse

/-- Coefficient number of a bit-vector, most significant bit first; models
`galois.Poly(bits, GF(2))` (and `int(chunk, 2)`). -/
def bitsToNat (l : List ℕ) : ℕ := l.foldl (fun acc b => 2 * acc + b) 0

/-- Ceiling of the base-2 logarithm (fuel-based). Used to model
`np.ceil(beta + np.log2(d + 1))` exactly: for integer `beta` that ceiling is
`beta + ceilLog2 (d + 1)`. -/
def ceilLog2Aux : ℕ → ℕ → ℕ
  | 0, _ => 0
  | fuel + 1, n => if n ≤ 1 then 0 else ceilLog2Aux fuel ((n + 1) / 2) + 1

def ceilLog2 (n : ℕ) : ℕ := ceilLog2Aux n n

/-- The loop of `find_d_and_gamma` (`amdc_for_p2p.py` lines 26-31): starting
at `d = 1` and stepping by 2, continue while
`d * (beta + log2(d + 1)) < m_len`. The float comparison is modelled exactly
as the equivalent integer comparison `(d+1)^d < 2^(m_len - d*beta)` (both
sides of the source inequality are exact: `log2((d+1)^d) < m_len - d*beta`
iff `(d+1)^d < 2^(m_len - d*beta)`, and a non-positive right side makes the
condition false since `d ≥ 1`). -/
def find_d_loop (beta m_len : ℕ) : ℕ → ℕ → ℕ
  | 0, d => d
  | fuel + 1, d =>
    if (d + 1) ^ d < 2 ^ (m_len - d * beta) then find_d_loop beta m_len fuel (d + 2)
    else d

/-- Models `find_d_and_gamma` (lines 18-33): the found `d` together with
`gamma = ceil(beta + log2(d + 1))`. -/
def find_d_and_gamma (beta m_len : ℕ) : ℕ × ℕ :=
  let d := find_d_loop beta m_len m_len 1
  (d, beta + ceilLog2 (d + 1))

/-- Models `np.array_split(arr, d)`: the first `len % d` blocks get
`len / d + 1` elements, the remaining blocks `len / d`. -/
def array_split (l : List ℕ) (d : ℕ) : List (List ℕ) :=
  (List.range d).map fun i =>
    let q := l.length / d
    let r := l.length % d
    let start := if i < r then i * (q + 1) else r * (q + 1) + (i - r) * q
    (l.drop start).take (if i < r then q + 1 else q)

/-- The tag computation shared verbatim by `amdc_encode_message` (lines
74-103) and `amdc_decode_message` (lines 137-166): split the padded message
into `d` blocks, build `f(x) = theta^(d+2) + sum_i u_i * theta^i` over
GF(2)[x], take `f mod b`, and left-pad its binary digits to `gamma` bits. -/
def amdc_tag (padded_message theta_binary b_binary : List ℕ) (d gamma : ℕ) :
    List ℕ :=
  let u_list := (array_split padded_message d).map bitsToNat
  let theta_val := bitsToNat theta_binary
  let f_val := (List.range d).foldl
    (fun acc i => Nat.xor acc (polyMul (u_list.getD i 0) (polyPow theta_val (i + 1))))
    (polyPow theta_val (d + 2))
  let remainder := polyMod f_val (bitsToNat b_binary)
  List.replicate (gamma - (natToBits remainder).length) 0 ++ natToBits remainder

/-- Models `amdc_encode_message` (lines 47-108). The random key
`theta_binary` (sampled by `randbits(1)` per position in the source) and the
irreducible polynomial `b_binary` (looked up in the bundled yaml table by
`get_binary_irreducible`, which is not part of the sources) are explicit
parameters. Output is `padded_message ++ theta ++ tau`. -/
def amdc_encode_message (message : List ℕ) (beta : ℕ)
    (theta_binary b_binary : List ℕ) : List ℕ :=
  let dg := find_d_and_gamma beta message.length
  let padded_message := message ++ List.replicate (dg.1 * dg.2 - message.length) 0
  padded_message ++ theta_binary ++ amdc_tag padded_message theta_binary b_binary dg.1 dg.2

/-- Models `amdc_decode_message` (lines 111-173): slice the input as
`encoded[:-2*gamma]`, `encoded[-2*gamma:-gamma]`, `encoded[-gamma:]`
(Python's clamping negative slices become truncated-subtraction take/drop),
recompute the tag, compare, and return the first `message_length` data
bits. The source performs no length validation and never raises; the
function is total. -/
def amdc_decode_message (encoded_message : List ℕ) (message_length beta : ℕ)
    (b_binary : List ℕ) : Bool × List ℕ :=
  let dg := find_d_and_gamma beta message_length
  let len := encoded_message.length
  let padded_message := encoded_message.take (len - 2 * dg.2)
  let theta_binary := (encoded_message.take (len - dg.2)).drop (len - 2 * dg.2)
  let tau_received := encoded_message.drop (len - dg.2)
  let tau_calculated := amdc_tag padded_message theta_binary b_binary dg.1 dg.2
  (decide (tau_calculated = tau_received), padded_message.take message_length)

/-- The codeword length `d * gamma + 2 * gamma` determined by
`(beta, message_length)` alone. -/
def amdc_encoded_length (beta m_len : ℕ) : ℕ :=
  (find_d_and_gamma beta m_len).1 * (find_d_and_gamma beta m_len).2
    + 2 * (find_d_and_gamma beta m_len).2

/-- Modelled from the spec: `get_binary_irreducible` reads the bundled
`binary_irreducible_polynomials_dict.yaml` table, which is not among the
sources; per the spec it maps `gamma` to a bitstring of coefficients,
MSB-first, including the leading 1 for the degree-`gamma` term. This
predicate characterises any value the table can deliver for `gamma`. -/
def is_table_polynomial (gamma : ℕ) (b_binary : List ℕ) : Prop :=
  b_binary.length = gamma + 1 ∧ b_binary.head? = some 1 ∧ BitList b_binary

instance (gamma : ℕ) (b : List ℕ) : Decidable (is_table_polynomial gamma b) := by
  unfold is_table_polynomial; infer_instance

/-- Kinds of `*_finished` barrier broadcasts a participant emits; the state
model records their order of emission. -/
inductive BarrierEvent where
  | parity_finished
  | veto_finished
  | collision_detection_finished
  | notification_finished
  | fixed_message_finished
  | message_finished
deriving DecidableEq

/-- One parity round as seen by a single participant: its own accepted
`create_bitstring` vector, the `n - 1` shared-key bits received from peers,
and the `n - 1` broadcast values received from peers. -/
structure ParityOracle where
  bitstring : List ℕ
  recvKeys : List ℕ
  recvBroadcasts : List ℕ
deriving DecidableEq

/-- The instance attributes of `ParticipantNode` (lines 39-77) mutated by
the protocol methods. The transient mailbox contents are oracle data; the
`*_finished` rosters are shown in their post-barrier (cleared) state. The
extra `emitted` field is instrumentation recording the sequence of
`*_finished` barrier broadcast+wait phases the participant ran; it is not a
source attribute. -/
structure PNState where
  node_id : String
  all_node_ids : List String
  parity_input : ℕ
  parity_shared_keys : List ℕ
  parity_broadcasts_last : Bool
  parity_received_broadcast_values : List ℕ
  parity_result : ℕ
  parity_finished : List Bool
  veto_input : ℕ
  veto_result : ℕ
  veto_finished : List Bool
  collision_detection_input : ℕ
  collision_detection_result : ℕ
  collision_detection_finished : List Bool
  notification_input : String
  notification_is_spectator : Bool
  notification_result : ℕ
  notification_finished : List Bool
  message_length : ℕ
  encoded_message_length : ℕ
  message_input : List ℕ
  message_amdc_encoded_input : List ℕ
  is_message_sender : Bool
  is_message_receiver : Bool
  message_amdc_encoded_received_message : List ℕ
  message_amdc_decoded_received_message : List ℕ
  message_received_str : String
  one_time_pad : List ℕ
  fixed_message_finished : List Bool
  message_finished : List Bool
  emitted : List BarrierEvent
deriving DecidableEq

/-- The field values assigned by `ParticipantNode.__init__` (lines 39-77);
in particular `message_length = 64` and `encoded_message_length = 99`. -/
def init_state (node_id : String) : PNState where
  node_id := node_id
  all_node_ids := []
  parity_input := 0
  parity_shared_keys := []
  parity_broadcasts_last := false
  parity_received_broadcast_values := []
  parity_result := 0
  parity_finished := []
  veto_input := 0
  veto_result := 0
  veto_finished := []
  collision_detection_input := 0
  collision_detection_result := 0
  collision_detection_finished := []
  notification_input := ""
  notification_is_spectator := false
  notification_result := 0
  notification_finished := []
  message_length := 64
  encoded_message_length := 99
  message_input := []
  message_amdc_encoded_input := []
  is_message_sender := false
  is_message_receiver := false
  message_amdc_encoded_received_message := []
  message_amdc_decoded_received_message := []
  message_received_str := ""
  one_time_pad := []
  fixed_message_finished := []
  message_finished := []
  emitted := []

/-- Models `send_parity_finished` (lines 484-490): broadcast the token, wait
for every peer's token, clear the roster. -/
def send_parity_finished (s : PNState) : PNState :=
  { s with parity_finished := [],
           emitted := s.emitted ++ [BarrierEvent.parity_finished] }

/-- Models `send_veto_finished` (lines 402-408). -/
def send_veto_finished (s : PNState) : PNState :=
  { s with veto_finished := [],
           emitted := s.emitted ++ [BarrierEvent.veto_finished] }

/-- Models `send_collision_detection_finished` (lines 357-363). -/
def send_collision_detection_finished (s : PNState) : PNState :=
  { s with collision_detection_finished := [],
           emitted := s.emitted ++ [BarrierEvent.collision_detection_finished] }

/-- Models `send_notification_finished` (lines 302-308). -/
def send_notification_finished (s : PNState) : PNState :=
  { s with notification_finished := [],
           emitted := s.emitted ++ [BarrierEvent.notification_finished] }

/-- Models `send_fixed_message_finished` (lines 212-218). -/
def send_fixed_message_finished (s : PNState) : PNState :=
  { s with fixed_message_finished := [],
           emitted := s.emitted ++ [BarrierEvent.fixed_message_finished] }

/-- Models `send_message_finished` (lines 117-123). -/
def send_message_finished (s : PNState) : PNState :=
  { s with message_finished := [],
           emitted := s.emitted ++ [BarrierEvent.message_finished] }

/-- Models `execute_parity` (lines 411-431) for one participant:
`distribute_key_bits` keeps the vector's first bit and the peers' key bits
arrive in the mailbox; the own XOR is broadcast and appended after the
peers' broadcasts; the result is computed, the mailboxes cleared, and the
`parity_finished` barrier run. Mailbox interleavings are normalised to
own-first / own-last (XOR is order-independent); `parity_broadcasts_last`
only affects the broadcast order, not the state. -/
def execute_parity (o : ParityOracle) (s : PNState) : PNState :=
  let keys := o.bitstring.headD 0 :: o.recvKeys
  let x := calculate_parity_xor_key_result keys
  let received := o.recvBroadcasts ++ [x]
  send_parity_finished
    { s with parity_shared_keys := [],
             parity_received_broadcast_values := [],
             parity_result := calculate_parity_result received }

/-- The repetition loop of `execute_veto` (lines 377-387) for one
`last_broadcaster`: parity rounds on the randomised veto input, aborting
(with `parity_broadcasts_last` reset and the `veto_finished` barrier) as
soon as a parity result is 1. `vo` supplies, per global round index, the
`randbits(1)` draw and the parity oracle; the Bool reports the abort. -/
def veto_rounds (vo : ℕ → ℕ × ParityOracle) : ℕ → ℕ → PNState → PNState × Bool
  | 0, _, s => (s, false)
  | k + 1, idx, s =>
    let s1 := { s with parity_input :=
      set_parity_input_by_veto_input s.veto_input (vo idx).1 }
    let s2 := execute_parity (vo idx).2 s1
    let s3 := { s2 with veto_result := s2.parity_result }
    if s3.veto_result = 1 then
      (send_veto_finished { s3 with parity_broadcasts_last := false }, true)
    else
      veto_rounds vo k (idx + 1) s3

/-- The `last_broadcaster` rotation of `execute_veto` (lines 373-389). -/
def veto_broadcasters (security : ℕ) (vo : ℕ → ℕ × ParityOracle) :
    List String → ℕ → PNState → PNState
  | [], _, s => send_veto_finished s
  | last_broadcaster :: rest, idx, s =>
    let s1 := if last_broadcaster = s.node_id
      then { s with parity_broadcasts_last := true } else s
    let r := veto_rounds vo security idx s1
    if r.2 then r.1
    else veto_broadcasters security vo rest (idx + security)
      { r.1 with parity_broadcasts_last := false }

/-- Models `execute_veto` (lines 366-390). -/
def execute_veto (security : ℕ) (vo : ℕ → ℕ × ParityOracle) (s : PNState) :
    PNState :=
  veto_broadcasters security vo s.all_node_ids 0 s

/-- The phase-B veto input computed at `execute_collision_detection` lines
337-342: 1 exactly when the (still phase-A) `veto_input` is 1 and the
residual `parity_input` of the aborting round is 0. -/
def collision_phase_b_veto_input (veto_input parity_input : ℕ) : ℕ :=
  if veto_input = 1 ∧ parity_input = 0 then 1 else 0

/-- Models `execute_collision_detection` (lines 311-355): derive the input
bit from the sender role, copy it to `veto_input`, run the phase-A veto; on
result 0 return immediately with result 0 (no `collision_detection_finished`
barrier on this path); otherwise compute the phase-B input, run the phase-B
veto, classify (0 means one sender, otherwise collision), and run the
barrier. -/
def execute_collision_detection (security : ℕ)
    (voA voB : ℕ → ℕ × ParityOracle) (s : PNState) : PNState :=
  let cdi : ℕ := if s.is_message_sender then 1 else 0
  let s1 := { s with collision_detection_input := cdi, veto_input := cdi }
  let s2 := execute_veto security voA s1
  if s2.veto_result = 0 then { s2 with collision_detection_result := 0 }
  else
    let s3 := { s2 with veto_input :=
      collision_phase_b_veto_input s2.veto_input s2.parity_input }
    let s4 := execute_veto security voB s3
    let s5 := { s4 with collision_detection_result :=
      if s4.veto_result = 0 then 1 else 2 }
    send_collision_detection_finished s5

/-- One round of `execute_notification_parity` (lines 251-277) with
spectator `p`: set the parity input from the notification input
(`set_notification_parity_by_notification_input`), distribute key bits and
compute the own XOR; the spectator collects every peer's value, appends its
own, computes the parity result and ORs it into `notification_result`
(`set_notification_result_by_parity_result`, lines 293-300); a
non-spectator only sends its value to `p`. Then both mailboxes are cleared,
`parity_input` reset to 0, and the `parity_finished` barrier run. -/
def notification_parity_round (p : String) (rand : ℕ) (o : ParityOracle)
    (s : PNState) : PNState :=
  let s1 := { s with parity_input :=
    set_notification_parity_by_notification_input p s.notification_input rand }
  let x := calculate_parity_xor_key_result (o.bitstring.headD 0 :: o.recvKeys)
  let s2 :=
    if p = s1.node_id then
      let r := calculate_parity_result (o.recvBroadcasts ++ [x])
      { s1 with parity_result := r,
                notification_result := s1.notification_result ||| r }
    else s1
  send_parity_finished
    { s2 with parity_shared_keys := [],
              parity_received_broadcast_values := [],
              parity_input := 0 }

/-- The `notification_security` repetitions for one spectator. -/
def notification_rounds (p : String) (no : ℕ → ℕ × ParityOracle) :
    ℕ → ℕ → PNState → PNState
  | 0, _, s => s
  | k + 1, idx, s =>
    notification_rounds p no k (idx + 1)
      (notification_parity_round p (no idx).1 (no idx).2 s)

/-- The spectator iteration of `execute_notification_parity`
(`itertools.product(self.all_node_ids, range(1, security + 1))`). -/
def notification_spectators (security : ℕ) (no : ℕ → ℕ × ParityOracle) :
    List String → ℕ → PNState → PNState
  | [], _, s => s
  | p :: rest, idx, s =>
    notification_spectators security no rest (idx + security)
      (notification_rounds p no security idx s)

/-- Models `execute_notification` (lines 229-243): the spectator loop
followed by the `notification_finished` barrier. -/
def execute_notification (security : ℕ) (no : ℕ → ℕ × ParityOracle)
    (s : PNState) : PNState :=
  send_notification_finished
    (notification_spectators security no s.all_node_ids 0 s)

/-- Models `set_parity_input_by_message_role` (lines 180-191): the sender
feeds the next encoded-message bit, the receiver its next one-time-pad bit,
and a helper leaves `parity_input` unchanged (the source has no else
branch). -/
def set_parity_input_by_message_role (round_of_protocol : ℕ) (s : PNState) :
    PNState :=
  if s.is_message_sender then
    { s with parity_input := s.message_amdc_encoded_input.getD round_of_protocol 0 }
  else if s.is_message_receiver then
    { s with parity_input := s.one_time_pad.getD round_of_protocol 0 }
  else s

/-- Models `add_to_received_message` (lines 201-210): the receiver appends
`parity_result XOR one_time_pad[r]`, everyone else the raw `parity_result`. -/
def add_to_received_message (round_of_protocol : ℕ) (s : PNState) : PNState :=
  if s.is_message_receiver then
    { s with message_amdc_encoded_received_message :=
        s.message_amdc_encoded_received_message
          ++ [Nat.xor s.parity_result (s.one_time_pad.getD round_of_protocol 0)] }
  else
    { s with message_amdc_encoded_received_message :=
        s.message_amdc_encoded_received_message ++ [s.parity_result] }

/-- Models `received_message_to_string` (lines 220-226): group the decoded
bits into 8-bit chunks and take the character with each chunk's code. -/
def received_message_to_string (s : PNState) : PNState :=
  let bits := s.message_amdc_decoded_received_message
  let chunks := (List.range ((bits.length + 7) / 8)).map
    fun i => (bits.drop (8 * i)).take 8
  { s with message_received_str :=
      String.mk (chunks.map fun c => Char.ofNat (bitsToNat c)) }

/-- The round loop of `execute_fixed_role_message_transmission`
(lines 149-153). -/
def fixed_role_rounds (fo : ℕ → ParityOracle) : ℕ → ℕ → PNState → PNState
  | 0, _, s => s
  | k + 1, r, s =>
    let s1 := set_parity_input_by_message_role r s
    let s2 := execute_parity (fo r) s1
    let s3 := add_to_received_message r s2
    fixed_role_rounds fo k (r + 1) s3

/-- Models `execute_fixed_role_message_transmission` (lines 126-178). The
receiver's one-time pad is `bit_count` draws from `otp`
(`create_one_time_pad`, lines 193-199); the sender's AMDC key bits come
from `theta` and the looked-up polynomial is `b_binary` (see
`is_table_polynomial`). Returns `none` for the sender's codeword length
`ValueError` (lines 145-147). After the rounds the receiver decodes and
vetoes on a failed check, others veto 0; the veto runs, the received bits
are rendered to a string, and the `fixed_message_finished` barrier ends the
call. -/
def execute_fixed_role_message_transmission (security bit_count : ℕ)
    (otp : ℕ → ℕ) (theta b_binary : List ℕ) (fo : ℕ → ParityOracle)
    (vo : ℕ → ℕ × ParityOracle) (s : PNState) : Option PNState :=
  let s1 := if s.is_message_receiver
    then { s with one_time_pad := (List.range bit_count).map otp } else s
  let enc := amdc_encode_message s1.message_input security theta b_binary
  let s2 := if s1.is_message_sender
    then { s1 with message_amdc_encoded_input := enc } else s1
  if s2.is_message_sender ∧ enc.length ≠ s2.encoded_message_length then none
  else
    let s3 := fixed_role_rounds fo bit_count 0 s2
    let s4 :=
      if s3.is_message_receiver then
        let dec := amdc_decode_message s3.message_amdc_encoded_received_message
          s3.message_length security b_binary
        { s3 with message_amdc_decoded_received_message := dec.2,
                  veto_input := if dec.1 then 0 else 1 }
      else
        { s3 with veto_input := 0,
                  message_amdc_decoded_received_message :=
                    s3.message_amdc_encoded_received_message }
    let s5 := execute_veto security vo s4
    let s6 := received_message_to_string s5
    some (send_fixed_message_finished s6)

/-- Byte-wise lexicographic comparison of characters. -/
def charLe (a b : Char) : Bool := a.toNat ≤ b.toNat

/-- Lexicographic order on character lists; models Python string
comparison. -/
def charListLe : List Char → List Char → Bool
  | [], _ => true
  | _ :: _, [] => false
  | a :: as, b :: bs => if a.toNat = b.toNat then charListLe as bs else charLe a b

def strLe (a b : String) : Bool := charListLe a.data b.data

/-- Models `create_order_in_all_node_ids` (lines 550-563): collect every
peer's broadcast `node_id`, raise `NameError` (here `none`) when the own id
appears among them, append the own id and sort ascending (`list.sort()` is
modelled by an insertion sort under the lexicographic order). -/
def create_order_in_all_node_ids (peer_ids : List String) (s : PNState) :
    Option PNState :=
  if s.node_id ∈ peer_ids then none
  else some { s with all_node_ids :=
    (peer_ids ++ [s.node_id]).insertionSort fun a b => strLe a b }

/-- Models `clear_all` (lines 609-643). The source resets neither
`message_finished` nor `message_received_str` nor the two length constants;
`notification_input` is reset to the empty string (the setter's self-notify
guard compares it against the node id, which is non-empty). The
instrumentation field `emitted` is untouched. -/
def clear_all (s : PNState) : PNState :=
  { s with
    all_node_ids := []
    parity_input := 0
    parity_shared_keys := []
    parity_broadcasts_last := false
    parity_received_broadcast_values := []
    parity_result := 0
    parity_finished := []
    veto_input := 0
    veto_result := 0
    veto_finished := []
    collision_detection_input := 0
    collision_detection_result := 0
    collision_detection_finished := []
    notification_input := ""
    notification_is_spectator := false
    notification_result := 0
    notification_finished := []
    message_input := []
    is_message_sender := false
    is_message_receiver := false
    message_amdc_encoded_input := []
    message_amdc_encoded_received_message := []
    message_amdc_decoded_received_message := []
    one_time_pad := []
    fixed_message_finished := [] }

/-- Models `execute_message_transmission` (lines 80-115): build the id
order, derive the sender role from a non-empty `notification_input`, run
collision detection and switch on its result (0 aborts, 2 resets the result
to 0 and aborts, any other value proceeds, exactly as the Python `match`
falls through), run notification, derive the receiver role from
`notification_result`, run the fixed-role transmission with
`self.encoded_message_length` bits, and close with the `message_finished`
barrier. The `clear_all()` call at line 111 is commented out in the source
and therefore absent here. -/
def execute_message_transmission (security : ℕ) (peer_ids : List String)
    (voA voB : ℕ → ℕ × ParityOracle) (no : ℕ → ℕ × ParityOracle)
    (otp : ℕ → ℕ) (theta b_binary : List ℕ) (fo : ℕ → ParityOracle)
    (vo : ℕ → ℕ × ParityOracle) (s : PNState) : Option PNState :=
  (create_order_in_all_node_ids peer_ids s).bind fun s1 =>
    let s2 := if s1.notification_input ≠ ""
      then { s1 with is_message_sender := true } else s1
    let s3 := execute_collision_detection security voA voB s2
    if s3.collision_detection_result = 0 then some s3
    else if s3.collision_detection_result = 2 then
      some { s3 with collision_detection_result := 0 }
    else
      let s4 := execute_notification security no s3
      let s5 := if s4.notification_result = 1
        then { s4 with is_message_receiver := true } else s4
      (execute_fixed_role_message_transmission security
        s5.encoded_message_length otp theta b_binary fo vo s5).map
        send_message_finished

/-- The three bit-valued instance attributes guarded by property setters
(lines 494-522), over Python integers. -/
structure InputFields where
  parity_input : ℤ
  veto_input : ℤ
  collision_detection_input : ℤ
deriving DecidableEq

/-- Models the `parity_input` setter (lines 498-502): `ValueError` (none)
unless the value is 1 or 0, otherwise store it. -/
def set_parity_input (s : InputFields) (bit : ℤ) : Option InputFields :=
  if bit ≠ 1 ∧ bit ≠ 0 then none else some { s with parity_input := bit }

/-- Models the `veto_input` setter (lines 508-512). -/
def set_veto_input (s : InputFields) (bit : ℤ) : Option InputFields :=
  if bit ≠ 1 ∧ bit ≠ 0 then none else some { s with veto_input := bit }

/-- Models the `collision_detection_input` setter (lines 518-522). -/
def set_collision_detection_input (s : InputFields) (bit : ℤ) :
    Option InputFields :=
  if bit ≠ 1 ∧ bit ≠ 0 then none else some { s with collision_detection_input := bit }

/-- A parity oracle whose round yields parity result 0 at this participant
(two participants, all shares and broadcasts 0). -/
def zeroParityOracle : ParityOracle := ⟨[0, 0], [0], [0]⟩

/-- A parity oracle whose round yields parity result 1 at this participant
(the peer broadcast a 1). -/
def oneParityOracle : ParityOracle := ⟨[0, 0], [0], [1]⟩

/-- Concrete all-zero veto round used by the C8 witness. -/
def allZeroVetoRound : VetoRound 2 :=
  ⟨fun _ => 0, ⟨fun _ => [0, 0], fun _ => Equiv.refl _⟩⟩

/-- Concrete two-participant configuration for the C9 witness. -/
def notifIds : Fin 2 → String := fun i => if i = 0 then "a" else "b"

/-- The sender (participant 0) wants to notify "b"; participant 1 is not a
sender. -/
def notifInputs : Fin 2 → String := fun i => if i = 0 then "b" else ""

/-- All-zero share randomness for the C9 witness. -/
def notifShareRand : String → ℕ → ParityRound 2 :=
  fun _ _ => ⟨fun _ => [0, 0], fun _ => Equiv.refl _⟩

/-- Standalone collision-detection entry state for the C2 scenario: a
non-sender with the two-node roster already established. -/
def cdexState : PNState := { init_state "a" with all_node_ids := ["a", "b"] }

/-- Phase-A oracles for the C2/C4 scenarios: the peer's broadcast is 1, the
`randbits(1)` draw is 0, so the aborting round ends with `parity_input`
equal to the participant's own contribution. -/
def voAone : ℕ → ℕ × ParityOracle := fun _ => (0, oneParityOracle)

/-- Phase-B oracles yielding all-zero parity rounds. -/
def voBzero : ℕ → ℕ × ParityOracle := fun _ => (0, zeroParityOracle)

/-- All-zero round oracles for the no-sender scenarios. -/
def c3vo : ℕ → ℕ × ParityOracle := fun _ => (0, zeroParityOracle)

/-- The concrete orchestrator run of the C3 scenario: two nodes, nobody
wants to send, security 1; collision detection yields 0 and the run aborts. -/
def c3run : Option PNState :=
  execute_message_transmission 1 ["b"] c3vo c3vo c3vo (fun _ => 0) [] []
    (fun _ => zeroParityOracle) c3vo (init_state "a")

/-- Sender state for the C4 scenario: the participant wants to notify "b". -/
def c4State : PNState := { init_state "a" with notification_input := "b" }

/-- Phase-B oracles of the C4 scenario: the `randbits(1)` draw is 1 and the
peer broadcast a 1, so the phase-B veto aborts with result 1 (collision). -/
def voBcollide : ℕ → ℕ × ParityOracle := fun _ => (1, oneParityOracle)

theorem xor_bits_eq_add_mod (a b : ℕ) (ha : a ≤ 1) (hb : b ≤ 1) :
    Nat.xor a b = (a + b) % 2 := by
  interval_cases a <;> interval_cases b <;> rfl

theorem foldl_xor_eq_sum_mod (l : List ℕ) (hl : BitList l) :
    ∀ acc, acc ≤ 1 → l.foldl Nat.xor acc = (acc + l.sum) % 2 := by
  induction l with
  | nil =>
    intro acc hacc
    simp [Nat.mod_eq_of_lt (Nat.lt_succ_of_le hacc)]
  | cons a t ih =>
    intro acc hacc
    have ha : a ≤ 1 := hl a (List.mem_cons_self a t)
    have ht : BitList t := fun b hb => hl b (List.mem_cons_of_mem a hb)
    have hxa : Nat.xor acc a ≤ 1 := by
      rw [xor_bits_eq_add_mod acc a hacc ha]
      exact Nat.le_of_lt_succ (Nat.mod_lt _ (by norm_num))
    have := ih ht (Nat.xor acc a) hxa
    rw [List.foldl_cons, this, xor_bits_eq_add_mod acc a hacc ha, List.sum_cons]
    omega

theorem listXor_eq_sum_mod (l : List ℕ) (hl : BitList l) :
    listXor l = l.sum % 2 := by
  have := foldl_xor_eq_sum_mod l hl 0 (by norm_num)
  simpa [listXor] using this

theorem listXor_le_one (l : List ℕ) (hl : BitList l) : listXor l ≤ 1 := by
  rw [listXor_eq_sum_mod l hl]
  exact Nat.le_of_lt_succ (Nat.mod_lt _ (by norm_num))

theorem sum_eq_count_one (l : List ℕ) (hl : BitList l) :
    l.sum = l.count 1 := by
  induction l with
  | nil => rfl
  | cons a t ih =>
    have ha : a ≤ 1 := hl a (List.mem_cons_self a t)
    have ht : BitList t := fun b hb => hl b (List.mem_cons_of_mem a hb)
    interval_cases a <;>
      simp [List.count_cons, ih ht, Nat.add_comm]

theorem listXor_perm (l₁ l₂ : List ℕ) (h : l₁.Perm l₂) (hl : BitList l₂) :
    listXor l₁ = listXor l₂ := by
  have hl₁ : BitList l₁ := fun b hb => hl b (h.mem_iff.mp hb)
  rw [listXor_eq_sum_mod l₁ hl₁, listXor_eq_sum_mod l₂ hl, h.sum_eq]

theorem getD_le_one (l : List ℕ) (hl : BitList l) (k : ℕ) : l.getD k 0 ≤ 1 := by
  by_cases h : k < l.length
  · rw [List.getD_eq_getElem l 0 h]
    exact hl _ (List.getElem_mem h)
  · rw [List.getD_eq_default l 0 (Nat.le_of_not_lt h)]
    exact Nat.zero_le 1

theorem sharedKeys_bits {n : ℕ} (v : Fin n → ℕ) (R : ParityRound n)
    (h : ValidParityRound v R) (j : Fin n) : BitList (sharedKeys R j) := by
  intro b hb
  rw [sharedKeys, List.mem_ofFn] at hb
  obtain ⟨i, rfl⟩ := hb
  exact getD_le_one _ (h i).2.1 _

theorem broadcastValue_le_one {n : ℕ} (v : Fin n → ℕ) (R : ParityRound n)
    (h : ValidParityRound v R) (j : Fin n) : broadcastValue R j ≤ 1 :=
  listXor_le_one _ (sharedKeys_bits v R h j)

theorem allBroadcasts_bits {n : ℕ} (v : Fin n → ℕ) (R : ParityRound n)
    (h : ValidParityRound v R) : BitList (allBroadcasts R) := by
  intro b hb
  rw [allBroadcasts, List.mem_ofFn] at hb
  obtain ⟨j, rfl⟩ := hb
  exact broadcastValue_le_one v R h j

theorem inputs_le_one {n : ℕ} (v : Fin n → ℕ) (R : ParityRound n)
    (h : ValidParityRound v R) (i : Fin n) : v i ≤ 1 := by
  have := (h i).2.2
  omega

theorem sum_getD_eq_sum (l : List ℕ) (n : ℕ) (hlen : l.length = n) :
    ∑ k : Fin n, l.getD k 0 = l.sum := by
  have hofn : List.ofFn (fun k : Fin n => l.getD k 0) = l := by
    apply List.ext_getElem
    · simp [hlen]
    · intro k h1 h2
      simp only [List.getElem_ofFn]
      exact List.getD_eq_getElem l 0 h2
  calc ∑ k : Fin n, l.getD k 0 = (List.ofFn (fun k : Fin n => l.getD k 0)).sum :=
        List.sum_ofFn.symm
    _ = l.sum := by rw [hofn]

/-- Core parity invariant: the XOR of all broadcast values of a valid round
equals the XOR of all participants' parity inputs. -/
theorem allBroadcasts_xor_eq {n : ℕ} (v : Fin n → ℕ) (R : ParityRound n)
    (h : ValidParityRound v R) :
    listXor (allBroadcasts R) = listXor (List.ofFn v) := by
  rw [listXor_eq_sum_mod _ (allBroadcasts_bits v R h),
    listXor_eq_sum_mod _ (by
      intro b hb
      rw [List.mem_ofFn] at hb
      obtain ⟨i, rfl⟩ := hb
      exact inputs_le_one v R h i)]
  rw [allBroadcasts]
  rw [List.sum_ofFn, List.sum_ofFn]
  have hbv : ∀ j, broadcastValue R j =
      (∑ i : Fin n, (R.shares i).getD (R.assign i j) 0) % 2 := by
    intro j
    rw [broadcastValue, calculate_parity_xor_key_result,
      listXor_eq_sum_mod _ (sharedKeys_bits v R h j), sharedKeys, List.sum_ofFn]
  calc (∑ j : Fin n, broadcastValue R j) % 2
      = (∑ j : Fin n, (∑ i : Fin n, (R.shares i).getD (R.assign i j) 0) % 2) % 2 := by
        simp only [hbv]
    _ = (∑ j : Fin n, ∑ i : Fin n, (R.shares i).getD (R.assign i j) 0) % 2 := by
        rw [← Finset.sum_nat_mod]
    _ = (∑ i : Fin n, ∑ j : Fin n, (R.shares i).getD (R.assign i j) 0) % 2 := by
        rw [Finset.sum_comm]
    _ = (∑ i : Fin n, (R.shares i).sum) % 2 := by
        congr 1
        apply Finset.sum_congr rfl
        intro i _
        rw [Equiv.sum_comp (R.assign i) (fun k => (R.shares i).getD k 0)]
        exact sum_getD_eq_sum _ n (h i).1
    _ = (∑ i : Fin n, v i) % 2 := by
        rw [Finset.sum_nat_mod]
        congr 1
        apply Finset.sum_congr rfl
        intro i _
        rw [sum_eq_count_one _ (h i).2.1]
        exact (h i).2.2

/-- Any participant's received-broadcast mailbox is a permutation of the
round's broadcast values; its computed parity result is the XOR of all
inputs. -/
theorem parity_result_of_perm {n : ℕ} (v : Fin n → ℕ) (R : ParityRound n)
    (h : ValidParityRound v R) (received : List ℕ)
    (hperm : received.Perm (allBroadcasts R)) :
    calculate_parity_result received = listXor (List.ofFn v) := by
  rw [calculate_parity_result,
    listXor_perm received _ hperm (allBroadcasts_bits v R h)]
  exact allBroadcasts_xor_eq v R h

theorem veto_result_fold_zero (results : List ℕ)
    (h : ∀ x ∈ results, x = 0) : veto_result_fold results 0 = 0 := by
  induction results with
  | nil => rfl
  | cons a t ih =>
    have ha : a = 0 := h a (List.mem_cons_self a t)
    have ht : ∀ x ∈ t, x = 0 := fun x hx => h x (List.mem_cons_of_mem a hx)
    subst ha
    rw [veto_result_fold]
    simp only [if_neg (by norm_num : (0 : ℕ) ≠ 1)]
    exact ih ht

theorem lor_zero_zero : (0 : ℕ) ||| 0 = 0 := rfl

theorem notification_result_fold_zero (ids : List String) (security : ℕ)
    (self : String) (roundResult : String → ℕ → ℕ)
    (h : ∀ r, roundResult self r = 0) :
    notification_result_fold ids security self roundResult = 0 := by
  rw [notification_result_fold]
  have : ∀ pairs : List (String × ℕ),
      pairs.foldl (fun acc pr => if pr.1 = self then acc ||| roundResult pr.1 pr.2 else acc) 0
        = 0 := by
    intro pairs
    induction pairs with
    | nil => rfl
    | cons a t ih =>
      rw [List.foldl_cons]
      by_cases hp : a.1 = self
      · rw [if_pos hp, hp, h a.2, lor_zero_zero]
        exact ih
      · rw [if_neg hp]
        exact ih
  exact this _

theorem floorLog2Aux_spec : ∀ fuel n, n ≤ fuel → 1 ≤ n →
    2 ^ floorLog2Aux fuel n ≤ n ∧ n < 2 ^ (floorLog2Aux fuel n + 1) := by
  intro fuel
  induction fuel with
  | zero => intro n hfuel hn; omega
  | succ fuel ih =>
    intro n hfuel hn
    rw [floorLog2Aux]
    by_cases h : n < 2
    · rw [if_pos h]
      constructor
      · simpa using hn
      · simpa using h
    · rw [if_neg h]
      have hrec := ih (n / 2) (by omega) (by omega)
      obtain ⟨h1, h2⟩ := hrec
      constructor
      · calc 2 ^ (floorLog2Aux fuel (n / 2) + 1)
            = 2 * 2 ^ floorLog2Aux fuel (n / 2) := by ring
          _ ≤ 2 * (n / 2) := by omega
          _ ≤ n := by omega
      · calc n < 2 * (n / 2) + 2 := by omega
          _ ≤ 2 * 2 ^ (floorLog2Aux fuel (n / 2) + 1) := by omega
          _ = 2 ^ (floorLog2Aux fuel (n / 2) + 1 + 1) := by ring

theorem floorLog2_spec (n : ℕ) (hn : 1 ≤ n) :
    2 ^ floorLog2 n ≤ n ∧ n < 2 ^ (floorLog2 n + 1) :=
  floorLog2Aux_spec n n (Nat.le_refl n) hn

theorem floorLog2_eq_of_bracket (v γ : ℕ) (h1 : 2 ^ γ ≤ v) (h2 : v < 2 ^ (γ + 1)) :
    floorLog2 v = γ := by
  have hv : 1 ≤ v := le_trans (Nat.one_le_two_pow) h1
  obtain ⟨hk1, hk2⟩ := floorLog2_spec v hv
  rcases Nat.lt_trichotomy (floorLog2 v) γ with h | h | h
  · exfalso
    have : 2 ^ (floorLog2 v + 1) ≤ 2 ^ γ := Nat.pow_le_pow_right (by norm_num) h
    omega
  · exact h
  · exfalso
    have : 2 ^ (γ + 1) ≤ 2 ^ floorLog2 v := Nat.pow_le_pow_right (by norm_num) h
    omega

theorem xor_high_lt (x y k : ℕ) (hx1 : 2 ^ k ≤ x) (hx2 : x < 2 ^ (k + 1))
    (hy1 : 2 ^ k ≤ y) (hy2 : y < 2 ^ (k + 1)) : Nat.xor x y < 2 ^ k := by
  apply Nat.lt_pow_two_of_testBit
  intro i hi
  show (x ^^^ y).testBit i = false
  rw [Nat.testBit_xor]
  rcases Nat.eq_or_lt_of_le hi with heq | hlt
  · have hpow : 2 ^ (k + 1) = 2 * 2 ^ k := by ring
    have hxbit : x.testBit i = true := by
      rw [← heq, Nat.testBit_to_div_mod]
      have : x / 2 ^ k = 1 := by
        apply Nat.div_eq_of_lt_le <;> omega
      simp [this]
    have hybit : y.testBit i = true := by
      rw [← heq, Nat.testBit_to_div_mod]
      have : y / 2 ^ k = 1 := by
        apply Nat.div_eq_of_lt_le <;> omega
      simp [this]
    rw [hxbit, hybit]
    rfl
  · have hle : 2 ^ (k + 1) ≤ 2 ^ i := Nat.pow_le_pow_right (by norm_num) hlt
    rw [Nat.testBit_lt_two_pow (by omega), Nat.testBit_lt_two_pow (by omega)]
    rfl

theorem polyMod_step_lt (a b : ℕ) (hb : 1 ≤ b) (ha : 2 ^ floorLog2 b ≤ a) :
    Nat.xor a (b <<< (floorLog2 a - floorLog2 b)) < a := by
  have ha1 : 1 ≤ a := le_trans Nat.one_le_two_pow ha
  obtain ⟨hak1, hak2⟩ := floorLog2_spec a ha1
  obtain ⟨hbj1, hbj2⟩ := floorLog2_spec b hb
  have hjk : floorLog2 b ≤ floorLog2 a := by
    by_contra hcon
    have : 2 ^ (floorLog2 a + 1) ≤ 2 ^ floorLog2 b :=
      Nat.pow_le_pow_right (by norm_num) (by omega)
    omega
  have hshift : b <<< (floorLog2 a - floorLog2 b)
      = b * 2 ^ (floorLog2 a - floorLog2 b) := Nat.shiftLeft_eq b _
  have hsub : floorLog2 b + (floorLog2 a - floorLog2 b) = floorLog2 a := by omega
  have hlow : 2 ^ floorLog2 a ≤ b <<< (floorLog2 a - floorLog2 b) := by
    rw [hshift]
    calc 2 ^ floorLog2 a
        = 2 ^ floorLog2 b * 2 ^ (floorLog2 a - floorLog2 b) := by
          rw [← pow_add, hsub]
      _ ≤ b * 2 ^ (floorLog2 a - floorLog2 b) := Nat.mul_le_mul_right _ hbj1
  have hhigh : b <<< (floorLog2 a - floorLog2 b) < 2 ^ (floorLog2 a + 1) := by
    rw [hshift]
    calc b * 2 ^ (floorLog2 a - floorLog2 b)
        < 2 ^ (floorLog2 b + 1) * 2 ^ (floorLog2 a - floorLog2 b) := by
          apply Nat.mul_lt_mul_of_lt_of_le hbj2 (Nat.le_refl _)
          exact Nat.pos_pow_of_pos _ (by norm_num)
      _ = 2 ^ (floorLog2 a + 1) := by
          rw [← pow_add]
          congr 1
          omega
  have := xor_high_lt a (b <<< (floorLog2 a - floorLog2 b)) (floorLog2 a)
    hak1 hak2 hlow hhigh
  omega

theorem polyModAux_lt (b : ℕ) (hb : 1 ≤ b) :
    ∀ fuel a, a < fuel → polyModAux b fuel a < 2 ^ floorLog2 b := by
  intro fuel
  induction fuel with
  | zero => intro a ha; omega
  | succ fuel ih =>
    intro a ha
    rw [polyModAux]
    by_cases h : 2 ^ floorLog2 b ≤ a
    · rw [if_pos h]
      exact ih _ (by have := polyMod_step_lt a b hb h; omega)
    · rw [if_neg h]
      omega

theorem polyMod_lt (a b : ℕ) (hb : 1 ≤ b) : polyMod a b < 2 ^ floorLog2 b :=
  polyModAux_lt b hb (a + 1) a (Nat.lt_succ_self a)

theorem natBitsRevAux_length_le :
    ∀ fuel n k, n ≤ fuel → n < 2 ^ k → (natBitsRevAux fuel n).length ≤ k := by
  intro fuel
  induction fuel with
  | zero => intro n k h1 h2; simp [natBitsRevAux]
  | succ fuel ih =>
    intro n k h1 h2
    rw [natBitsRevAux]
    by_cases h : n = 0
    · simp [h]
    · rw [if_neg h]
      cases k with
      | zero => omega
      | succ k =>
        have : (natBitsRevAux fuel (n / 2)).length ≤ k := by
          apply ih (n / 2) k (by omega)
          have : (2 : ℕ) ^ (k + 1) = 2 * 2 ^ k := by ring
          omega
        simpa using this

theorem natToBits_length_le (n γ : ℕ) (h : n < 2 ^ γ) (hγ : 1 ≤ γ) :
    (natToBits n).length ≤ γ := by
  rw [natToBits]
  by_cases h0 : n = 0
  · rw [if_pos h0]
    simpa using hγ
  · rw [if_neg h0, List.length_reverse]
    exact natBitsRevAux_length_le n n γ (Nat.le_refl n) h

theorem bitsToNat_foldl_split (l : List ℕ) :
    ∀ acc, l.foldl (fun a b => 2 * a + b) acc
      = acc * 2 ^ l.length + l.foldl (fun a b => 2 * a + b) 0 := by
  induction l with
  | nil => intro acc; simp
  | cons a t ih =>
    intro acc
    rw [List.foldl_cons, List.foldl_cons, ih (2 * acc + a), ih (2 * 0 + a)]
    simp [List.length_cons, pow_succ]
    ring

theorem bitsToNat_lt (l : List ℕ) (hl : BitList l) : bitsToNat l < 2 ^ l.length := by
  induction l with
  | nil => simp [bitsToNat]
  | cons a t ih =>
    have ha : a ≤ 1 := hl a (List.mem_cons_self a t)
    have ht : BitList t := fun b hb => hl b (List.mem_cons_of_mem a hb)
    have hrec := ih ht
    rw [bitsToNat, List.foldl_cons, bitsToNat_foldl_split]
    rw [bitsToNat] at hrec
    rw [List.length_cons, pow_succ]
    have hmul : (2 * 0 + a) * 2 ^ t.length ≤ 1 * 2 ^ t.length :=
      Nat.mul_le_mul_right _ (by omega)
    omega

theorem bitsToNat_cons_one (t : List ℕ) :
    2 ^ t.length ≤ bitsToNat (1 :: t) := by
  rw [bitsToNat, List.foldl_cons, bitsToNat_foldl_split]
  omega

theorem ceilLog2Aux_le_pow : ∀ fuel n, n ≤ fuel → n ≤ 2 ^ ceilLog2Aux fuel n := by
  intro fuel
  induction fuel with
  | zero => intro n h; interval_cases n; simp [ceilLog2Aux]
  | succ fuel ih =>
    intro n h
    rw [ceilLog2Aux]
    by_cases h1 : n ≤ 1
    · rw [if_pos h1]
      simpa using h1
    · rw [if_neg h1]
      have hrec := ih ((n + 1) / 2) (by omega)
      have : (2 : ℕ) ^ (ceilLog2Aux fuel ((n + 1) / 2) + 1)
          = 2 * 2 ^ ceilLog2Aux fuel ((n + 1) / 2) := by ring
      omega

theorem ceilLog2_le_pow (n : ℕ) : n ≤ 2 ^ ceilLog2 n :=
  ceilLog2Aux_le_pow n n (Nat.le_refl n)

theorem ceilLog2_pos (n : ℕ) (h : 2 ≤ n) : 1 ≤ ceilLog2 n := by
  rw [ceilLog2]
  obtain ⟨m, rfl⟩ : ∃ m, n = m + 1 := ⟨n - 1, by omega⟩
  rw [ceilLog2Aux, if_neg (by omega)]
  omega

theorem find_d_loop_ge (beta m_len : ℕ) :
    ∀ fuel d, d ≤ find_d_loop beta m_len fuel d := by
  intro fuel
  induction fuel with
  | zero => intro d; exact Nat.le_refl d
  | succ fuel ih =>
    intro d
    rw [find_d_loop]
    by_cases h : (d + 1) ^ d < 2 ^ (m_len - d * beta)
    · rw [if_pos h]
      exact le_trans (by omega) (ih (d + 2))
    · rw [if_neg h]

theorem find_d_loop_exit (beta m_len : ℕ) :
    ∀ fuel d, 1 ≤ d → m_len ≤ d + 2 * fuel →
      ¬ ((find_d_loop beta m_len fuel d + 1) ^ find_d_loop beta m_len fuel d
          < 2 ^ (m_len - find_d_loop beta m_len fuel d * beta)) := by
  intro fuel
  induction fuel with
  | zero =>
    intro d hd hm
    rw [find_d_loop]
    intro hcon
    have h1 : 2 ^ d ≤ (d + 1) ^ d := Nat.pow_le_pow_left (by omega) d
    have h2 : 2 ^ (m_len - d * beta) ≤ 2 ^ d :=
      Nat.pow_le_pow_right (by norm_num) (by omega)
    omega
  | succ fuel ih =>
    intro d hd hm
    rw [find_d_loop]
    by_cases h : (d + 1) ^ d < 2 ^ (m_len - d * beta)
    · rw [if_pos h]
      exact ih (d + 2) (by omega) (by omega)
    · rw [if_neg h]
      exact h

theorem find_d_pos (beta m_len : ℕ) : 1 ≤ (find_d_and_gamma beta m_len).1 :=
  find_d_loop_ge beta m_len m_len 1

theorem find_gamma_ge (beta m_len : ℕ) :
    beta + 1 ≤ (find_d_and_gamma beta m_len).2 := by
  have hd := find_d_pos beta m_len
  have := ceilLog2_pos ((find_d_and_gamma beta m_len).1 + 1) (by omega)
  show beta + 1 ≤ beta + ceilLog2 (find_d_loop beta m_len m_len 1 + 1)
  have hd' : 1 ≤ find_d_loop beta m_len m_len 1 := find_d_loop_ge beta m_len m_len 1
  have := ceilLog2_pos (find_d_loop beta m_len m_len 1 + 1) (by omega)
  omega

/-- The message always fits in the `d * gamma` data bits chosen by
`find_d_and_gamma`. -/
theorem message_fits (beta m_len : ℕ) :
    m_len ≤ (find_d_and_gamma beta m_len).1 * (find_d_and_gamma beta m_len).2 := by
  set d := find_d_loop beta m_len m_len 1 with hd
  have hd1 : 1 ≤ d := find_d_loop_ge beta m_len m_len 1
  have hexit := find_d_loop_exit beta m_len m_len 1 (Nat.le_refl 1) (by omega)
  rw [← hd] at hexit
  show m_len ≤ d * (beta + ceilLog2 (d + 1))
  by_contra hcon
  apply hexit
  have hceil : d + 1 ≤ 2 ^ ceilLog2 (d + 1) := ceilLog2_le_pow (d + 1)
  have h1 : (d + 1) ^ d ≤ (2 ^ ceilLog2 (d + 1)) ^ d := Nat.pow_le_pow_left hceil d
  have h2 : (2 ^ ceilLog2 (d + 1)) ^ d = 2 ^ (ceilLog2 (d + 1) * d) := by
    rw [← pow_mul]
  have hcomm : ceilLog2 (d + 1) * d = d * ceilLog2 (d + 1) := Nat.mul_comm _ _
  have h3 : ceilLog2 (d + 1) * d + 1 ≤ m_len - d * beta := by
    have : d * beta + d * ceilLog2 (d + 1) < m_len := by
      have := Nat.mul_add d beta (ceilLog2 (d + 1))
      omega
    omega
  have h4 : 2 ^ (ceilLog2 (d + 1) * d + 1) ≤ 2 ^ (m_len - d * beta) :=
    Nat.pow_le_pow_right (by norm_num) h3
  have h5 : (2 : ℕ) ^ (ceilLog2 (d + 1) * d + 1) = 2 * 2 ^ (ceilLog2 (d + 1) * d) := by
    ring
  have h6 : 1 ≤ (2 : ℕ) ^ (ceilLog2 (d + 1) * d) := Nat.one_le_two_pow
  omega

theorem table_polynomial_bracket (gamma : ℕ) (b : List ℕ)
    (hb : is_table_polynomial gamma b) :
    2 ^ gamma ≤ bitsToNat b ∧ bitsToNat b < 2 ^ (gamma + 1) := by
  obtain ⟨hlen, hhead, hbits⟩ := hb
  obtain ⟨t, rfl⟩ : ∃ t, b = 1 :: t := by
    cases b with
    | nil => simp at hhead
    | cons x t =>
      simp only [List.head?_cons, Option.some.injEq] at hhead
      exact ⟨t, by rw [hhead]⟩
  have hlen' : t.length = gamma := by
    simpa using hlen
  constructor
  · rw [← hlen']
    exact bitsToNat_cons_one t
  · have := bitsToNat_lt (1 :: t) hbits
    simpa [hlen'] using this

theorem amdc_tag_length (padded theta b : List ℕ) (d gamma : ℕ)
    (hb : is_table_polynomial gamma b) (hγ : 1 ≤ gamma) :
    (amdc_tag padded theta b d gamma).length = gamma := by
  obtain ⟨hb1, hb2⟩ := table_polynomial_bracket gamma b hb
  have hbpos : 1 ≤ bitsToNat b := le_trans Nat.one_le_two_pow hb1
  have hflog : floorLog2 (bitsToNat b) = gamma := floorLog2_eq_of_bracket _ _ hb1 hb2
  have key : ∀ f_val : ℕ,
      (List.replicate (gamma - (natToBits (polyMod f_val (bitsToNat b))).length) 0
        ++ natToBits (polyMod f_val (bitsToNat b))).length = gamma := by
    intro f_val
    have hrem : polyMod f_val (bitsToNat b) < 2 ^ gamma := by
      rw [← hflog]
      exact polyMod_lt _ _ hbpos
    have hlen := natToBits_length_le _ gamma hrem hγ
    simp only [List.length_append, List.length_replicate]
    omega
  exact key _

theorem amdc_encode_message_length (message : List ℕ) (beta : ℕ)
    (theta b : List ℕ)
    (hθ : theta.length = (find_d_and_gamma beta message.length).2)
    (hb : is_table_polynomial (find_d_and_gamma beta message.length).2 b) :
    (amdc_encode_message message beta theta b).length
      = amdc_encoded_length beta message.length := by
  have hfit := message_fits beta message.length
  have hγ : 1 ≤ (find_d_and_gamma beta message.length).2 := by
    have := find_gamma_ge beta message.length
    omega
  rw [amdc_encode_message, amdc_encoded_length]
  simp only [List.length_append, List.length_replicate]
  rw [amdc_tag_length _ _ _ _ _ hb hγ, hθ]
  omega

theorem amdc_round_trip_general (m : List ℕ) (beta : ℕ) (theta b : List ℕ)
    (hθ : theta.length = (find_d_and_gamma beta m.length).2)
    (hb : is_table_polynomial (find_d_and_gamma beta m.length).2 b) :
    amdc_decode_message (amdc_encode_message m beta theta b) m.length beta b
      = (true, m) := by
  have hfit := message_fits beta m.length
  have hγ1 : 1 ≤ (find_d_and_gamma beta m.length).2 := by
    have := find_gamma_ge beta m.length
    omega
  obtain ⟨d, γ, hdg⟩ : ∃ d γ, find_d_and_gamma beta m.length = (d, γ) :=
    ⟨_, _, rfl⟩
  rw [hdg] at hθ hb hfit hγ1
  dsimp only at hθ hb hfit hγ1
  simp only [amdc_decode_message, amdc_encode_message, hdg]
  set padded := m ++ List.replicate (d * γ - m.length) 0 with hpadded
  set tag := amdc_tag padded theta b d γ with htagdef
  have hplen : padded.length = d * γ := by
    rw [hpadded]
    simp only [List.length_append, List.length_replicate]
    omega
  have htlen : tag.length = γ := by
    rw [htagdef]
    exact amdc_tag_length padded theta b d γ hb hγ1
  have hlen : ((padded ++ theta) ++ tag).length = d * γ + γ + γ := by
    simp only [List.length_append]
    omega
  have e1 : ((padded ++ theta) ++ tag).length - 2 * γ = d * γ := by omega
  have e2 : ((padded ++ theta) ++ tag).length - γ = d * γ + γ := by omega
  have htake1 : ((padded ++ theta) ++ tag).take
      (((padded ++ theta) ++ tag).length - 2 * γ) = padded := by
    rw [e1, List.append_assoc]
    exact List.take_left' hplen
  have htake2 : ((padded ++ theta) ++ tag).take
      (((padded ++ theta) ++ tag).length - γ) = padded ++ theta := by
    rw [e2]
    apply List.take_left'
    simp only [List.length_append]
    omega
  have hdrop2 : (padded ++ theta).drop
      (((padded ++ theta) ++ tag).length - 2 * γ) = theta := by
    rw [e1]
    exact List.drop_left' hplen
  have hdrop3 : ((padded ++ theta) ++ tag).drop
      (((padded ++ theta) ++ tag).length - γ) = tag := by
    rw [e2]
    apply List.drop_left'
    simp only [List.length_append]
    omega
  rw [htake1, htake2, hdrop2, hdrop3]
  have hm : padded.take m.length = m := by
    rw [hpadded]
    exact List.take_left m _
  rw [hm, ← htagdef]
  have hdec : decide (tag = tag) = true := decide_eq_true rfl
  rw [hdec]

theorem amdc_decode_message_snd (enc : List ℕ) (m_len beta : ℕ) (b : List ℕ) :
    (amdc_decode_message enc m_len beta b).2
      = enc.take (min m_len (enc.length - 2 * (find_d_and_gamma beta m_len).2)) := by
  simp only [amdc_decode_message, List.take_take]

theorem execute_parity_veto_input (o : ParityOracle) (s : PNState) :
    (execute_parity o s).veto_input = s.veto_input := rfl

theorem veto_rounds_veto_input (vo : ℕ → ℕ × ParityOracle) :
    ∀ k idx s, ((veto_rounds vo k idx s).1).veto_input = s.veto_input := by
  intro k
  induction k with
  | zero => intro idx s; rfl
  | succ k ih =>
    intro idx s
    simp only [veto_rounds]
    split
    · rfl
    · rw [ih]
      rfl

theorem veto_broadcasters_veto_input (security : ℕ) (vo : ℕ → ℕ × ParityOracle) :
    ∀ ids idx s, (veto_broadcasters security vo ids idx s).veto_input = s.veto_input := by
  intro ids
  induction ids with
  | nil => intro idx s; rfl
  | cons p rest ih =>
    intro idx s
    have key : ∀ s1 : PNState, s1.veto_input = s.veto_input →
        (if (veto_rounds vo security idx s1).2 = true
          then (veto_rounds vo security idx s1).1
          else veto_broadcasters security vo rest (idx + security)
            { (veto_rounds vo security idx s1).1 with
                parity_broadcasts_last := false }).veto_input
          = s.veto_input := by
      intro s1 h1
      by_cases hr : (veto_rounds vo security idx s1).2 = true
      · rw [if_pos hr, veto_rounds_veto_input, h1]
      · rw [if_neg hr, ih]
        show ((veto_rounds vo security idx s1).1).veto_input = s.veto_input
        rw [veto_rounds_veto_input, h1]
    show (veto_broadcasters security vo (p :: rest) idx s).veto_input = s.veto_input
    rw [veto_broadcasters]
    exact key _ (by split <;> rfl)

theorem execute_veto_veto_input (security : ℕ) (vo : ℕ → ℕ × ParityOracle)
    (s : PNState) : (execute_veto security vo s).veto_input = s.veto_input :=
  veto_broadcasters_veto_input security vo s.all_node_ids 0 s

theorem veto_rounds_emitted (vo : ℕ → ℕ × ParityOracle) :
    ∀ k idx s, ∃ t,
      ((veto_rounds vo k idx s).1).emitted = s.emitted ++ t
      ∧ ((veto_rounds vo k idx s).2 = true →
          ∃ t2, t = t2 ++ [BarrierEvent.veto_finished]) := by
  intro k
  induction k with
  | zero =>
    intro idx s
    exact ⟨[], by simp [veto_rounds], by simp [veto_rounds]⟩
  | succ k ih =>
    intro idx s
    simp only [veto_rounds]
    split
    · exact ⟨[BarrierEvent.parity_finished, BarrierEvent.veto_finished],
        by simp [send_veto_finished, execute_parity, send_parity_finished,
          List.append_assoc],
        fun _ => ⟨[BarrierEvent.parity_finished], rfl⟩⟩
    · obtain ⟨t, ht1, ht2⟩ := ih (idx + 1) _
      refine ⟨BarrierEvent.parity_finished :: t, ?_, ?_⟩
      · rw [ht1]
        simp [execute_parity, send_parity_finished, List.append_assoc]
      · intro hab
        obtain ⟨t2, rfl⟩ := ht2 hab
        exact ⟨BarrierEvent.parity_finished :: t2, rfl⟩

theorem veto_broadcasters_emitted (security : ℕ) (vo : ℕ → ℕ × ParityOracle) :
    ∀ ids idx s, ∃ t,
      (veto_broadcasters security vo ids idx s).emitted
        = s.emitted ++ t ++ [BarrierEvent.veto_finished] := by
  intro ids
  induction ids with
  | nil =>
    intro idx s
    exact ⟨[], by simp [veto_broadcasters, send_veto_finished]⟩
  | cons p rest ih =>
    intro idx s
    have key : ∀ s1 : PNState, s1.emitted = s.emitted → ∃ t,
        (if (veto_rounds vo security idx s1).2 = true
          then (veto_rounds vo security idx s1).1
          else veto_broadcasters security vo rest (idx + security)
            { (veto_rounds vo security idx s1).1 with
                parity_broadcasts_last := false }).emitted
          = s.emitted ++ t ++ [BarrierEvent.veto_finished] := by
      intro s1 h1
      by_cases hr : (veto_rounds vo security idx s1).2 = true
      · rw [if_pos hr]
        obtain ⟨t, ht1, ht2⟩ := veto_rounds_emitted vo security idx s1
        obtain ⟨t2, rfl⟩ := ht2 hr
        refine ⟨t2, ?_⟩
        rw [ht1, h1, List.append_assoc]
      · rw [if_neg hr]
        obtain ⟨t, ht1, _⟩ := veto_rounds_emitted vo security idx s1
        obtain ⟨t3, ht3⟩ := ih (idx + security)
          { (veto_rounds vo security idx s1).1 with parity_broadcasts_last := false }
        refine ⟨t ++ t3, ?_⟩
        rw [ht3]
        show ((veto_rounds vo security idx s1).1).emitted ++ t3
            ++ [BarrierEvent.veto_finished] = _
        rw [ht1, h1]
        simp [List.append_assoc]
    show ∃ t, (veto_broadcasters security vo (p :: rest) idx s).emitted
        = s.emitted ++ t ++ [BarrierEvent.veto_finished]
    rw [veto_broadcasters]
    exact key _ (by split <;> rfl)

theorem execute_veto_emitted (security : ℕ) (vo : ℕ → ℕ × ParityOracle)
    (s : PNState) : ∃ t,
      (execute_veto security vo s).emitted
        = s.emitted ++ t ++ [BarrierEvent.veto_finished] :=
  veto_broadcasters_emitted security vo s.all_node_ids 0 s

theorem collision_phase_b_veto_input_eq_one (v p : ℕ) :
    collision_phase_b_veto_input v p = 1 ↔ v = 1 ∧ p = 0 := by
  rw [collision_phase_b_veto_input]
  split
  case isTrue h => simpa using h
  case isFalse h => simp [h]

theorem cd_branch_veto_input (security : ℕ) (voB : ℕ → ℕ × ParityOracle)
    (s2 : PNState) (h : ¬ s2.veto_result = 0) :
    (if s2.veto_result = 0 then { s2 with collision_detection_result := 0 }
     else
       send_collision_detection_finished
         { execute_veto security voB
             { s2 with veto_input :=
               collision_phase_b_veto_input s2.veto_input s2.parity_input } with
           collision_detection_result :=
             if (execute_veto security voB
                 { s2 with veto_input :=
                   collision_phase_b_veto_input s2.veto_input s2.parity_input
                 }).veto_result = 0
             then 1 else 2 }).veto_input
      = collision_phase_b_veto_input s2.veto_input s2.parity_input := by
  rw [if_neg h]
  show (execute_veto security voB
    { s2 with veto_input :=
      collision_phase_b_veto_input s2.veto_input s2.parity_input }).veto_input = _
  rw [execute_veto_veto_input]

theorem cd_branch_result_cases (security : ℕ) (voB : ℕ → ℕ × ParityOracle)
    (s2 : PNState) :
    (if s2.veto_result = 0 then { s2 with collision_detection_result := 0 }
     else
       send_collision_detection_finished
         { execute_veto security voB
             { s2 with veto_input :=
               collision_phase_b_veto_input s2.veto_input s2.parity_input } with
           collision_detection_result :=
             if (execute_veto security voB
                 { s2 with veto_input :=
                   collision_phase_b_veto_input s2.veto_input s2.parity_input
                 }).veto_result = 0
             then 1 else 2 }).collision_detection_result = 0
    ∨ (if s2.veto_result = 0 then { s2 with collision_detection_result := 0 }
     else
       send_collision_detection_finished
         { execute_veto security voB
             { s2 with veto_input :=
               collision_phase_b_veto_input s2.veto_input s2.parity_input } with
           collision_detection_result :=
             if (execute_veto security voB
                 { s2 with veto_input :=
                   collision_phase_b_veto_input s2.veto_input s2.parity_input
                 }).veto_result = 0
             then 1 else 2 }).collision_detection_result = 1
    ∨ (if s2.veto_result = 0 then { s2 with collision_detection_result := 0 }
     else
       send_collision_detection_finished
         { execute_veto security voB
             { s2 with veto_input :=
               collision_phase_b_veto_input s2.veto_input s2.parity_input } with
           collision_detection_result :=
             if (execute_veto security voB
                 { s2 with veto_input :=
                   collision_phase_b_veto_input s2.veto_input s2.parity_input
                 }).veto_result = 0
             then 1 else 2 }).collision_detection_result = 2 := by
  by_cases h : s2.veto_result = 0
  · left
    rw [if_pos h]
  · by_cases h2 : (execute_veto security voB
        { s2 with veto_input :=
          collision_phase_b_veto_input s2.veto_input s2.parity_input
        }).veto_result = 0
    · right; left
      rw [if_neg h]
      show (if (execute_veto security voB
          { s2 with veto_input :=
            collision_phase_b_veto_input s2.veto_input s2.parity_input
          }).veto_result = 0 then (1 : ℕ) else 2) = 1
      rw [if_pos h2]
    · right; right
      rw [if_neg h]
      show (if (execute_veto security voB
          { s2 with veto_input :=
            collision_phase_b_veto_input s2.veto_input s2.parity_input
          }).veto_result = 0 then (1 : ℕ) else 2) = 2
      rw [if_neg h2]

theorem cd_branch_emitted (security : ℕ) (voB : ℕ → ℕ × ParityOracle)
    (s2 : PNState) (base : List BarrierEvent)
    (h2 : ∃ t, s2.emitted = base ++ t ++ [BarrierEvent.veto_finished]) :
    ((if s2.veto_result = 0 then { s2 with collision_detection_result := 0 }
      else
        send_collision_detection_finished
          { execute_veto security voB
              { s2 with veto_input :=
                collision_phase_b_veto_input s2.veto_input s2.parity_input } with
            collision_detection_result :=
              if (execute_veto security voB
                  { s2 with veto_input :=
                    collision_phase_b_veto_input s2.veto_input s2.parity_input
                  }).veto_result = 0
              then 1 else 2 }).collision_detection_result = 0 →
      ∃ t, (if s2.veto_result = 0 then { s2 with collision_detection_result := 0 }
      else
        send_collision_detection_finished
          { execute_veto security voB
              { s2 with veto_input :=
                collision_phase_b_veto_input s2.veto_input s2.parity_input } with
            collision_detection_result :=
              if (execute_veto security voB
                  { s2 with veto_input :=
                    collision_phase_b_veto_input s2.veto_input s2.parity_input
                  }).veto_result = 0
              then 1 else 2 }).emitted
        = base ++ t ++ [BarrierEvent.veto_finished])
    ∧ ((if s2.veto_result = 0 then { s2 with collision_detection_result := 0 }
      else
        send_collision_detection_finished
          { execute_veto security voB
              { s2 with veto_input :=
                collision_phase_b_veto_input s2.veto_input s2.parity_input } with
            collision_detection_result :=
              if (execute_veto security voB
                  { s2 with veto_input :=
                    collision_phase_b_veto_input s2.veto_input s2.parity_input
                  }).veto_result = 0
              then 1 else 2 }).collision_detection_result ≠ 0 →
      ∃ t, (if s2.veto_result = 0 then { s2 with collision_detection_result := 0 }
      else
        send_collision_detection_finished
          { execute_veto security voB
              { s2 with veto_input :=
                collision_phase_b_veto_input s2.veto_input s2.parity_input } with
            collision_detection_result :=
              if (execute_veto security voB
                  { s2 with veto_input :=
                    collision_phase_b_veto_input s2.veto_input s2.parity_input
                  }).veto_result = 0
              then 1 else 2 }).emitted
        = base ++ t ++ [BarrierEvent.collision_detection_finished]) := by
  by_cases h : s2.veto_result = 0
  · rw [if_pos h]
    constructor
    · intro _
      exact h2
    · intro hne
      exact absurd rfl hne
  · rw [if_neg h]
    constructor
    · intro h0
      exfalso
      revert h0
      show (if (execute_veto security voB
          { s2 with veto_input :=
            collision_phase_b_veto_input s2.veto_input s2.parity_input
          }).veto_result = 0 then (1 : ℕ) else 2) = 0 → False
      split <;> omega
    · intro _
      obtain ⟨tA, htA⟩ := h2
      obtain ⟨tB, htB⟩ := execute_veto_emitted security voB
        { s2 with veto_input :=
          collision_phase_b_veto_input s2.veto_input s2.parity_input }
      refine ⟨tA ++ [BarrierEvent.veto_finished] ++ tB
        ++ [BarrierEvent.veto_finished], ?_⟩
      show (execute_veto security voB
        { s2 with veto_input :=
          collision_phase_b_veto_input s2.veto_input s2.parity_input }).emitted
          ++ [BarrierEvent.collision_detection_finished] = _
      rw [htB]
      show s2.emitted ++ tB ++ [BarrierEvent.veto_finished]
          ++ [BarrierEvent.collision_detection_finished] = _
      rw [htA]
      simp [List.append_assoc]

theorem listXor_zero_fun (n : ℕ) :
    listXor (List.ofFn fun _ : Fin n => (0 : ℕ)) = 0 := by
  rw [listXor_eq_sum_mod]
  · simp [List.sum_ofFn]
  · intro b hb
    rw [List.mem_ofFn] at hb
    obtain ⟨i, rfl⟩ := hb
    exact Nat.zero_le 1

theorem forall₂_mem_left {α β : Type} {R : α → β → Prop} :
    ∀ {l1 : List α} {l2 : List β}, List.Forall₂ R l1 l2 →
      ∀ a ∈ l1, ∃ b ∈ l2, R a b := by
  intro l1 l2 h
  induction h with
  | nil => intro a ha; simp at ha
  | cons hab _ ih =>
    intro a ha
    rcases List.mem_cons.mp ha with rfl | ha
    · exact ⟨_, List.mem_cons_self _ _, hab⟩
    · obtain ⟨b, hb, hr⟩ := ih a ha
      exact ⟨b, List.mem_cons_of_mem _ hb, hr⟩

/-- C1: for every group size `n ≥ 2` and every vector `v` of input bits,
when all participants run `execute_parity` (with `parity_broadcasts_last`
false, which only schedules the broadcast order), for every choice of share
bit-vectors admitted by `create_bitstring` (length `n`, XOR equal to the
participant's `parity_input`), every delivery bijection and every arrival
order of the broadcast mailbox, each participant's `parity_result` equals
the XOR of all `n` input bits. -/
theorem parity_result_eq_xor_of_inputs (n : ℕ) (_hn : 2 ≤ n) (v : Fin n → ℕ)
    (R : ParityRound n) (hR : ValidParityRound v R)
    (received : List ℕ) (hrecv : received.Perm (allBroadcasts R)) :
    calculate_parity_result received = listXor (List.ofFn v) :=
  parity_result_of_perm v R hR received hrecv

theorem parity_result_eq_xor_of_inputs_witness :
    calculate_parity_result [0, 1]
      = listXor (List.ofFn fun i : Fin 2 => if i = 0 then 1 else 0) := by
  refine parity_result_eq_xor_of_inputs 2 (by norm_num)
    (fun i => if i = 0 then 1 else 0)
    ⟨fun i => if i = 0 then [1, 0] else [0, 0], fun _ => Equiv.refl _⟩
    (by decide) [0, 1] ?_
  decide

/-- C8: if every participant runs `execute_veto` with `veto_input = 0`,
then whatever the random draws and share vectors (each round's shares
admitted by `create_bitstring` for the inputs produced by
`set_parity_input_by_veto_input` from veto input 0), every parity round
yields 0, the loop never aborts, and every participant's `veto_result` at
return is 0. -/
theorem veto_all_zero_sound (n β : ℕ) (_hn : 2 ≤ n) (_hβ : 1 ≤ β)
    (rounds : List (VetoRound n)) (_hlen : rounds.length = n * β)
    (hadm : ∀ vr ∈ rounds, ValidParityRound
      (fun i => set_parity_input_by_veto_input 0 (vr.rand i)) vr.shares)
    (received : List (List ℕ))
    (hrecv : List.Forall₂ (fun rc vr => rc.Perm (allBroadcasts vr.shares))
      received rounds) :
    veto_result_fold (received.map calculate_parity_result) 0 = 0 := by
  apply veto_result_fold_zero
  intro x hx
  rw [List.mem_map] at hx
  obtain ⟨rc, hrc, rfl⟩ := hx
  obtain ⟨vr, hvr, hperm⟩ := forall₂_mem_left hrecv rc hrc
  rw [parity_result_of_perm _ vr.shares (hadm vr hvr) rc hperm]
  have hz : (fun i => set_parity_input_by_veto_input 0 (vr.rand i))
      = fun _ : Fin n => (0 : ℕ) := by
    funext i
    rw [set_parity_input_by_veto_input, if_pos rfl]
  rw [hz, listXor_zero_fun]

theorem veto_all_zero_sound_witness :
    veto_result_fold
      (([allBroadcasts allZeroVetoRound.shares,
         allBroadcasts allZeroVetoRound.shares]).map calculate_parity_result)
      0 = 0 := by
  refine veto_all_zero_sound 2 1 (by norm_num) (by norm_num)
    [allZeroVetoRound, allZeroVetoRound] rfl (by decide) _ ?_
  exact List.Forall₂.cons (List.Perm.refl _)
    (List.Forall₂.cons (List.Perm.refl _) List.Forall₂.nil)

/-- C9: in `execute_notification` with exactly one sender whose
`notification_input` names an existing peer, every participant whose
`node_id` differs from that target ends with `notification_result = 0`, for
every outcome of the random bits: in the rounds where it is the spectator
every parity input produced by
`set_notification_parity_by_notification_input` is 0, so every parity
result it observes is 0 (node ids are non-empty, so the empty
`notification_input` of non-senders matches no spectator). -/
theorem notification_nontarget_zero (n β : ℕ) (_hn : 2 ≤ n)
    (ids : Fin n → String) (notif_input : Fin n → String)
    (sender : Fin n) (target : String)
    (hs : notif_input sender = target)
    (hothers : ∀ i, i ≠ sender → notif_input i = "")
    (hid_nonempty : ∀ i, ids i ≠ "")
    (j : Fin n) (hj : ids j ≠ target)
    (shareRand : String → ℕ → ParityRound n)
    (inputRand : String → ℕ → Fin n → ℕ)
    (hadm : ∀ p r, ValidParityRound
      (fun i => set_notification_parity_by_notification_input p (notif_input i)
        (inputRand p r i))
      (shareRand p r))
    (recvOrder : String → ℕ → List ℕ)
    (hrecv : ∀ p r, (recvOrder p r).Perm (allBroadcasts (shareRand p r))) :
    notification_result_fold (List.ofFn ids) β (ids j)
      (fun p r => calculate_parity_result (recvOrder p r)) = 0 := by
  apply notification_result_fold_zero
  intro r
  rw [parity_result_of_perm _ (shareRand (ids j) r) (hadm (ids j) r)
    _ (hrecv (ids j) r)]
  have hz : (fun i => set_notification_parity_by_notification_input (ids j)
      (notif_input i) (inputRand (ids j) r i)) = fun _ : Fin n => (0 : ℕ) := by
    funext i
    rw [set_notification_parity_by_notification_input]
    by_cases hi : i = sender
    · subst hi
      rw [hs, if_neg hj]
    · rw [hothers i hi, if_neg (hid_nonempty j)]
  rw [hz, listXor_zero_fun]

theorem notification_nontarget_zero_witness :
    notification_result_fold (List.ofFn notifIds) 1 (notifIds 0)
      (fun p r => calculate_parity_result
        (allBroadcasts (notifShareRand p r))) = 0 := by
  refine notification_nontarget_zero 2 1 (by norm_num) notifIds notifInputs
    0 "b" rfl (by decide) (by decide) 0 (by decide)
    notifShareRand (fun _ _ _ => 0) ?_ (fun p r => allBroadcasts (notifShareRand p r))
    (fun _ _ => List.Perm.refl _)
  intro p r i
  have hval : set_notification_parity_by_notification_input p (notifInputs i) 0
      = 0 := by
    rw [set_notification_parity_by_notification_input, ite_self]
  show create_bitstring_admits 2
    (set_notification_parity_by_notification_input p (notifInputs i) 0)
    ((notifShareRand p r).shares i)
  rw [hval]
  show create_bitstring_admits 2 0 [0, 0]
  decide

/-- C6: for every bit-list message, every `beta ≥ 1` whose derived gamma has
a table entry (modelled by `is_table_polynomial`, since the yaml table is
not among the sources), and every value of the randomly sampled key theta,
decoding an encoded message returns `(true, message)`. -/
theorem amdc_round_trip (m : List ℕ) (_hm : BitList m) (beta : ℕ)
    (_hβ : 1 ≤ beta) (theta b_binary : List ℕ)
    (hθ : theta.length = (find_d_and_gamma beta m.length).2)
    (hb : is_table_polynomial (find_d_and_gamma beta m.length).2 b_binary) :
    amdc_decode_message (amdc_encode_message m beta theta b_binary)
      m.length beta b_binary = (true, m) :=
  amdc_round_trip_general m beta theta b_binary hθ hb

theorem amdc_round_trip_witness :
    amdc_decode_message (amdc_encode_message [1] 1 [0, 1] [1, 0, 1]) 1 1 [1, 0, 1]
      = (true, [1]) :=
  amdc_round_trip [1] (by decide) 1 (by decide) [0, 1] [1, 0, 1]
    (by decide) (by decide)

/-- C7 counterexample: `amdc_decode_message` raises no `BadLength` error.
The input below has length 7 while `d * gamma + 2 * gamma` for
`(beta, message_length) = (1, 1)` is 6, yet decoding returns a perfectly
normal `(ok, bits)` pair (the source has no length check and no raise
statement at all). -/
theorem decode_no_length_error_counterexample :
    (List.replicate 7 0).length ≠ amdc_encoded_length 1 1
    ∧ amdc_decode_message (List.replicate 7 0) 1 1 [1, 0, 0] = (true, [0]) := by
  decide

/-- C7 (amended): `amdc_decode_message` performs no length validation and
never fails: for every encoded input of any length it returns a normal
`(ok, bits)` pair whose bit list is the first
`min(message_length, length - 2 * gamma)` entries of the input (the
misaligned Python slices simply clamp). -/
theorem decode_total_take (enc : List ℕ) (m_len beta : ℕ) (b_binary : List ℕ) :
    (amdc_decode_message enc m_len beta b_binary).2
      = enc.take (min m_len (enc.length - 2 * (find_d_and_gamma beta m_len).2)) :=
  amdc_decode_message_snd enc m_len beta b_binary

/-- C5 counterexample: `execute_message_transmission` always passes the
`__init__` constant `encoded_message_length = 99` as the bit count, but the
AMDC encoded length `d * gamma + 2 * gamma` derived from `(beta, m = 64)`
is 91 at `beta = 3`, so the two differ (and a sender's length check at
`beta = 3` raises `ValueError`). -/
theorem bit_count_claim_counterexample :
    amdc_encoded_length 3 64 ≠ (init_state "a").encoded_message_length := by
  decide

/-- C5 (amended): the constant bit count 99 equals the AMDC encoded length
only for the betas whose derived length is 99; at `beta = 5` (the value the
constant was computed for) a sender's check
`len(amdc_encode_message(message, 5)) == encoded_message_length`
succeeds for every 64-bit message, key and table polynomial. -/
theorem encoded_length_beta_five (nid : String) (message theta b_binary : List ℕ)
    (hm : message.length = 64)
    (hθ : theta.length = (find_d_and_gamma 5 64).2)
    (hb : is_table_polynomial (find_d_and_gamma 5 64).2 b_binary) :
    (amdc_encode_message message 5 theta b_binary).length
      = (init_state nid).encoded_message_length := by
  have h := amdc_encode_message_length message 5 theta b_binary
    (by rw [hm]; exact hθ) (by rw [hm]; exact hb)
  rw [h, hm]
  show amdc_encoded_length 5 64 = 99
  decide

theorem encoded_length_beta_five_witness :
    (amdc_encode_message (List.replicate 64 1) 5 (List.replicate 9 0)
      (1 :: List.replicate 9 0)).length
      = (init_state "a").encoded_message_length :=
  encoded_length_beta_five "a" (List.replicate 64 1) (List.replicate 9 0)
    (1 :: List.replicate 9 0) (by decide) (by decide) (by decide)

/-- C2 counterexample: a participant with `collision_detection_input = 0`
whose phase-A veto returned 1 enters phase B with `veto_input = 0`, not 1
(`execute_veto` and the classification never change `veto_input`, so the
returned state still shows the phase-B entry value). The claim predicts
`veto_input = 1` for exactly this participant. -/
theorem collision_phase_b_claim_counterexample :
    (execute_veto 1 voAone
      { cdexState with collision_detection_input := 0, veto_input := 0 }).veto_result = 1
    ∧ (execute_collision_detection 1 voAone voBzero cdexState).collision_detection_input = 0
    ∧ (execute_collision_detection 1 voAone voBzero cdexState).collision_detection_result = 1
    ∧ (execute_collision_detection 1 voAone voBzero cdexState).veto_input = 0 := by
  decide

/-- C2 (amended): whenever the phase-A veto returns 1, a participant enters
the phase-B veto with `veto_input = 1` if and only if its own
`collision_detection_input` was 1 AND its residual `parity_input` from the
aborting phase-A round was 0 (a sender that saw a 1 it did not itself
contribute); the returned state's `veto_input` is the phase-B entry value
since the veto loop never writes `veto_input`. -/
theorem collision_phase_b_entry_characterization (security : ℕ)
    (voA voB : ℕ → ℕ × ParityOracle) (s : PNState)
    (hA : (execute_veto security voA
      { s with collision_detection_input := if s.is_message_sender then 1 else 0,
               veto_input := if s.is_message_sender then 1 else 0 }).veto_result = 1) :
    ((execute_collision_detection security voA voB s).veto_input = 1
      ↔ ((if s.is_message_sender then (1 : ℕ) else 0) = 1
        ∧ (execute_veto security voA
          { s with collision_detection_input := if s.is_message_sender then 1 else 0,
                   veto_input := if s.is_message_sender then 1 else 0 }).parity_input
            = 0)) := by
  have hne : ¬ (execute_veto security voA
      { s with collision_detection_input := if s.is_message_sender then 1 else 0,
               veto_input := if s.is_message_sender then 1 else 0 }).veto_result = 0 := by
    rw [hA]
    norm_num
  show ((execute_collision_detection security voA voB s).veto_input = 1 ↔ _)
  simp only [execute_collision_detection]
  rw [cd_branch_veto_input security voB _ hne]
  rw [execute_veto_veto_input]
  exact collision_phase_b_veto_input_eq_one _ _

theorem collision_phase_b_entry_characterization_witness :
    ((execute_collision_detection 1 voAone voBzero cdexState).veto_input = 1
      ↔ ((if cdexState.is_message_sender then (1 : ℕ) else 0) = 1
        ∧ (execute_veto 1 voAone
          { cdexState with
              collision_detection_input := if cdexState.is_message_sender then 1 else 0,
              veto_input := if cdexState.is_message_sender then 1 else 0 }).parity_input
            = 0)) :=
  collision_phase_b_entry_characterization 1 voAone voBzero cdexState (by decide)

theorem option_map_send_eq_some (X : Option PNState) (sf : PNState)
    (h : X.map send_message_finished = some sf) :
    ∃ s6, X = some s6 ∧ sf = send_message_finished s6 := by
  cases X with
  | none => simp at h
  | some s6 =>
    refine ⟨s6, rfl, ?_⟩
    simpa using h.symm

/-- C3 (amended): the `*_finished` barriers close only the completing
paths. `execute_veto` always ends with the `veto_finished` barrier, but
`execute_collision_detection` ends with `collision_detection_finished`
exactly when its result is nonzero (when the phase-A veto yields 0 it
returns right after that veto's own barrier), and
`execute_message_transmission` ends with `message_finished` exactly when
collision detection yields 1; on the abort paths (results 0 and 2) no
`message_finished` barrier runs. -/
theorem finished_barrier_characterization (security : ℕ)
    (peer_ids : List String) (voA voB no vo : ℕ → ℕ × ParityOracle)
    (otp : ℕ → ℕ) (theta b_binary : List ℕ) (fo : ℕ → ParityOracle)
    (s s1 : PNState)
    (h1 : create_order_in_all_node_ids peer_ids s = some s1)
    (s3 : PNState)
    (h3 : s3 = execute_collision_detection security voA voB
      (if s1.notification_input ≠ "" then { s1 with is_message_sender := true }
       else s1))
    (sf : PNState)
    (hf : execute_message_transmission security peer_ids voA voB no otp theta
        b_binary fo vo s = some sf) :
    (s3.emitted.getLast? = some BarrierEvent.collision_detection_finished
      ↔ s3.collision_detection_result ≠ 0)
    ∧ (sf.emitted.getLast? = some BarrierEvent.message_finished
      ↔ s3.collision_detection_result = 1) := by
  obtain ⟨s2, hs2⟩ : ∃ s2, (if s1.notification_input ≠ ""
      then { s1 with is_message_sender := true } else s1) = s2 := ⟨_, rfl⟩
  rw [hs2] at h3
  obtain ⟨sA, hsA⟩ : ∃ sA, execute_veto security voA
      { s2 with collision_detection_input := if s2.is_message_sender then 1 else 0,
                veto_input := if s2.is_message_sender then 1 else 0 } = sA :=
    ⟨_, rfl⟩
  have h3' : s3 = (if sA.veto_result = 0
      then { sA with collision_detection_result := 0 }
      else
        send_collision_detection_finished
          { execute_veto security voB
              { sA with veto_input :=
                collision_phase_b_veto_input sA.veto_input sA.parity_input } with
            collision_detection_result :=
              if (execute_veto security voB
                  { sA with veto_input :=
                    collision_phase_b_veto_input sA.veto_input sA.parity_input
                  }).veto_result = 0
              then 1 else 2 }) := by
    rw [h3, ← hsA]
    rfl
  have hbase : ∃ t, sA.emitted = s2.emitted ++ t ++ [BarrierEvent.veto_finished] := by
    rw [← hsA]
    exact execute_veto_emitted security voA _
  have hchar := cd_branch_emitted security voB sA s2.emitted hbase
  rw [← h3'] at hchar
  have hcases := cd_branch_result_cases security voB sA
  rw [← h3'] at hcases
  have hfirst : s3.emitted.getLast? = some BarrierEvent.collision_detection_finished
      ↔ s3.collision_detection_result ≠ 0 := by
    constructor
    · intro hlast
      intro h0
      obtain ⟨t, ht⟩ := hchar.1 h0
      rw [ht, List.getLast?_concat] at hlast
      simp at hlast
    · intro hne
      obtain ⟨t, ht⟩ := hchar.2 hne
      rw [ht, List.getLast?_concat]
  refine ⟨hfirst, ?_⟩
  rw [execute_message_transmission] at hf
  rw [h1, Option.some_bind] at hf
  simp only [] at hf
  rw [hs2, ← h3] at hf
  rcases hcases with h0 | hone | h2
  · rw [if_pos h0] at hf
    have hsf : sf = s3 := by
      simpa using hf.symm
    subst hsf
    rw [h0]
    obtain ⟨t, ht⟩ := hchar.1 h0
    rw [ht, List.getLast?_concat]
    simp
  · rw [if_neg (by omega), if_neg (by omega)] at hf
    obtain ⟨s6, _, rfl⟩ := option_map_send_eq_some _ _ hf
    rw [show (send_message_finished s6).emitted
        = s6.emitted ++ [BarrierEvent.message_finished] from rfl]
    rw [List.getLast?_concat]
    simp [hone]
  · rw [if_neg (by omega), if_pos h2] at hf
    have hsf : sf = { s3 with collision_detection_result := 0 } := by
      simpa using hf.symm
    subst hsf
    rw [show ({ s3 with collision_detection_result := 0 } : PNState).emitted
        = s3.emitted from rfl]
    obtain ⟨t, ht⟩ := hchar.2 (by omega)
    rw [ht, List.getLast?_concat, h2]
    simp

/-- C3 counterexample: in the no-sender run the orchestrator returns
normally, but the last barrier ever emitted is the phase-A veto's
`veto_finished`: neither the `collision_detection_finished` barrier nor the
`message_finished` barrier runs on this abort path. -/
theorem finished_barrier_claim_counterexample :
    (execute_message_transmission 1 ["b"] c3vo c3vo c3vo (fun _ => 0) [] []
      (fun _ => zeroParityOracle) c3vo (init_state "a")).map
      (fun st => st.emitted.getLast?)
      = some (some BarrierEvent.veto_finished) := by
  decide

theorem finished_barrier_characterization_witness :
    ((execute_collision_detection 1 c3vo c3vo
        (if cdexState.notification_input ≠ ""
         then { cdexState with is_message_sender := true }
         else cdexState)).emitted.getLast?
        = some BarrierEvent.collision_detection_finished
      ↔ (execute_collision_detection 1 c3vo c3vo
        (if cdexState.notification_input ≠ ""
         then { cdexState with is_message_sender := true }
         else cdexState)).collision_detection_result ≠ 0)
    ∧ ((c3run.getD (init_state "a")).emitted.getLast?
        = some BarrierEvent.message_finished
      ↔ (execute_collision_detection 1 c3vo c3vo
        (if cdexState.notification_input ≠ ""
         then { cdexState with is_message_sender := true }
         else cdexState)).collision_detection_result = 1) :=
  finished_barrier_characterization 1 ["b"] c3vo c3vo c3vo c3vo (fun _ => 0)
    [] [] (fun _ => zeroParityOracle) (init_state "a") cdexState (by decide)
    _ rfl (c3run.getD (init_state "a")) (by decide)

/-- C4 counterexample: after a run of `execute_message_transmission` that
aborts with a detected collision, the returned state still has
`is_message_sender = true` and the full sorted roster in `all_node_ids`,
while `clear_all` would reset both: the per-protocol state is not reset
(the `clear_all()` call in the source is commented out). -/
theorem state_reset_claim_counterexample :
    (execute_message_transmission 1 ["b"] voAone voBcollide c3vo (fun _ => 0)
      [] [] (fun _ => zeroParityOracle) c3vo c4State).map
      (fun st => (st.is_message_sender, (clear_all st).is_message_sender,
        st.all_node_ids, (clear_all st).all_node_ids))
      = some (true, false, ["a", "b"], []) := by
  decide

/-- C4 (amended): the state is not reset by the orchestrator (see the
counterexample); `clear_all` itself, which `execute_message_transmission`
never invokes, resets every field it touches to the `__init__` value,
keeping only `message_finished`, `message_received_str`, the two length
constants, the node id (and the instrumentation trace). -/
theorem clear_all_resets_state (s : PNState) :
    clear_all s = { init_state s.node_id with
      message_length := s.message_length,
      encoded_message_length := s.encoded_message_length,
      message_received_str := s.message_received_str,
      message_finished := s.message_finished,
      emitted := s.emitted } := rfl

/-- C10: assigning any integer other than 0 or 1 to `parity_input`,
`veto_input` or `collision_detection_input` raises `ValueError` (modelled
as `none`, the field keeping its previous value), while assigning 0 or 1
succeeds and stores exactly that bit, leaving the other fields unchanged. -/
theorem input_setters_validate (s : InputFields) (b : ℤ) :
    (¬ (b = 0 ∨ b = 1) →
      set_parity_input s b = none ∧ set_veto_input s b = none
        ∧ set_collision_detection_input s b = none)
    ∧ ((b = 0 ∨ b = 1) →
      set_parity_input s b = some { s with parity_input := b }
        ∧ set_veto_input s b = some { s with veto_input := b }
        ∧ set_collision_detection_input s b
            = some { s with collision_detection_input := b }) := by
  constructor
  · intro h
    push_neg at h
    refine ⟨?_, ?_, ?_⟩ <;>
      simp [set_parity_input, set_veto_input, set_collision_detection_input,
        h.1, h.2]
  · intro h
    have h1 : ¬ (b ≠ 1 ∧ b ≠ 0) := by
      rcases h with rfl | rfl <;> simp
    refine ⟨?_, ?_, ?_⟩ <;>
      simp [set_parity_input, set_veto_input, set_collision_detection_input, h1]

theorem input_setters_validate_witness :
    (set_parity_input ⟨0, 0, 0⟩ 5 = none ∧ set_veto_input ⟨0, 0, 0⟩ 5 = none
      ∧ set_collision_detection_input ⟨0, 0, 0⟩ 5 = none)
    ∧ set_parity_input ⟨0, 0, 0⟩ 1 = some ⟨1, 0, 0⟩ := by
  constructor
  · exact (input_setters_validate ⟨0, 0, 0⟩ 5).1 (by decide)
  · exact ((input_setters_validate ⟨0, 0, 0⟩ 1).2 (Or.inr rfl)).1
